import Mathlib

/-!
Verification of the UnixFS file core of this repository: the file adder
(src/unixfs/src/adder.rs), the per-block file reader and traversal
(src/unixfs/src/file/reader.rs) and the byte-range visit
(src/unixfs/src/file/visit.rs), shallowly embedded in Lean.

Bytes are modelled as `Nat` (each < 256 in practice; no arithmetic on byte
values occurs in the embedded code), byte strings as `List Nat`, `u64` and
`usize` as `Nat`.

The protobuf codec (`FlatUnixFs::try_from`, `write_message`) and the sha-256
content hashing live outside `src/` (in the `pb` module and external crates),
so they are modelled from the spec: a block is represented by its decoded
logical form `FlatUnixFs`, and — since a v0 CID is a collision-free digest of
the deterministic encoding — a CID is modelled by the block it addresses.
-/

/-- Emptiness of a list is decidable without decidable equality of the
elements; the embedded code tests `links.is_empty()` on lists of links. -/
instance (priority := low) listEqNilDecidable {α : Type} (l : List α) :
    Decidable (l = []) :=
  match l with
  | [] => Decidable.isTrue rfl
  | _ :: _ => Decidable.isFalse (by simp)

/-- The UnixFs node type tag (`UnixFsType` of the pb module; the numbering of
the wire format is irrelevant here, only the tag identity is used). -/
inductive UnixFsType where
  | Raw
  | Directory
  | File
  | Metadata
  | Symlink
  | HAMTShard
  deriving DecidableEq, Repr

/-- The logical fields of the `UnixFs` protobuf payload used by this core:
content bytes, cumulative filesize, per-link blocksizes, the (rejected)
hashType/fanout, and the root-only mode/mtime metadata. `mtime` carries
`(Seconds, FractionalNanoseconds)` with the nanoseconds optional, as on the
wire. -/
structure UnixFsData where
  typ : UnixFsType
  Data : Option (List Nat)
  filesize : Option Nat
  blocksizes : List Nat
  hashType : Option Nat
  fanout : Option Nat
  mode : Option Nat
  mtime : Option (Int × Option Nat)
  deriving DecidableEq, Repr

/-- A merkledag link shape (`PBLink`): hash bytes, name, cumulative size. The
type is parametric in the CID representation so that `FlatUnixFs` below can
nest inside it. -/
structure PBLinkG (α : Type) where
  Hash : Option α
  Name : Option (List Nat)
  Tsize : Option Nat

/-- A decoded block (`FlatUnixFs`): the outgoing links and the UnixFs payload.
Modelled from the spec: the CID stored in a link's `Hash` is modelled by the
block it addresses (the pb codec and sha-256 are outside src/; a CID is a
collision-free function of the block bytes, and the block store maps it back),
which makes the type an inductive tree. -/
inductive FlatUnixFs where
  | mk (links : List (PBLinkG FlatUnixFs)) (data : UnixFsData)

/-- In this embedding a CID stands for the (decoded) block it addresses. -/
abbrev Cid := FlatUnixFs

abbrev PBLink := PBLinkG FlatUnixFs

/-- Projection: the links of a decoded block. -/
def FlatUnixFs.links : FlatUnixFs → List PBLink
  | .mk l _ => l

/-- Projection: the UnixFs payload of a decoded block. -/
def FlatUnixFs.data : FlatUnixFs → UnixFsData
  | .mk _ d => d

/-- `FileMetadata` of src/unixfs/src/file.rs: optional mode and mtime, the
mtime as `(seconds, nanos)` with absent nanoseconds defaulted to 0. -/
structure FileMetadata where
  mode : Option Nat
  mtime : Option (Int × Nat)
  deriving DecidableEq, Repr

/-- `From<&UnixFs> for FileMetadata` of src/unixfs/src/file.rs. -/
def metadataFrom (d : UnixFsData) : FileMetadata :=
  { mode := d.mode
    mtime := d.mtime.map fun sn => (sn.1, sn.2.getD 0) }

/-- `FileError` of src/unixfs/src/file.rs. -/
inductive FileError where
  | LinksAndBlocksizesMismatch
  | NoLinksNoContent
  | NonRootDefinesMetadata (m : FileMetadata)
  | IntermediateNodeWithoutFileSize
  | TreeExpandsOnLinks
  | TreeOverlapsBetweenLinks
  | EarlierLink
  | TreeJumpsBetweenLinks
  | UnexpectedRawOrFileProperties (hash_type : Option Nat) (fanout : Option Nat)
  deriving DecidableEq, Repr

/-- `FileReadFailed` of src/unixfs/src/file.rs. The `Read` (protobuf parse)
and `LinkInvalidCid` variants cannot arise in this embedding because blocks
are modelled in decoded form; they are kept for the shape of the type. -/
inductive FileReadFailed where
  | File (e : FileError)
  | UnexpectedType (t : UnixFsType)
  | Read
  | LinkInvalidCid (nth : Nat)
  deriving DecidableEq, Repr

/-- `Ending` of src/unixfs/src/file/reader.rs: the kind and end offset of the
span covered by the last processed block. -/
inductive Ending where
  | TreeCoverage (cover_end : Nat)
  | Chunk (chunk_end : Nat)
  deriving DecidableEq, Repr

/-- `Range<u64>` (`start..stop`, half open). `stop` stands for Rust's
`end` field, which is a reserved word in Lean. -/
structure URange where
  start : Nat
  stop : Nat
  deriving DecidableEq, Repr

/-- `Ending::check_is_suitable_next` of src/unixfs/src/file/reader.rs:
the guarded match deciding whether `next` may follow the last block. -/
def Ending.check_is_suitable_next (self : Ending) (offset : Nat) (next : URange) :
    Except FileReadFailed Unit :=
  match self with
  | .TreeCoverage cover_end =>
    if next.start ≤ offset ∧ cover_end < next.stop then
      .error (.File .TreeExpandsOnLinks)
    else if next.start < cover_end ∧ cover_end < next.stop then
      .error (.File .TreeOverlapsBetweenLinks)
    else if next.start < offset then
      .error (.File .EarlierLink)
    else
      .ok ()
  | .Chunk chunk_end =>
    if next.start ≠ chunk_end then
      .error (.File .TreeJumpsBetweenLinks)
    else
      .ok ()

/-- `FileReader` of src/unixfs/src/file/reader.rs. `ending` stands for the
source's `end` field (reserved word). -/
structure FileReader where
  offset : Nat
  ending : Ending
  had_links : Bool
  links : List PBLink
  data : List Nat
  blocksizes : List Nat
  metadata : FileMetadata

/-- `Traversal` of src/unixfs/src/file/reader.rs. -/
structure Traversal where
  last_had_links : Bool
  last_ending : Ending
  last_offset : Nat
  metadata : FileMetadata

/-- `FileReader::from_parts` of src/unixfs/src/file/reader.rs: validation and
classification of one decoded block. -/
def FileReader.from_parts (inner : FlatUnixFs) (offset : Nat) (metadata : FileMetadata) :
    Except FileReadFailed FileReader :=
  let empty_or_no_content := inner.data.Data.getD [] = []
  let is_zero_bytes := inner.data.filesize.getD 0 = 0
  if inner.data.typ ≠ UnixFsType.File ∧ inner.data.typ ≠ UnixFsType.Raw then
    .error (.UnexpectedType inner.data.typ)
  else if inner.links.length ≠ inner.data.blocksizes.length then
    .error (.File .LinksAndBlocksizesMismatch)
  else if empty_or_no_content ∧ ¬is_zero_bytes ∧ inner.links = [] then
    .error (.File .NoLinksNoContent)
  else
    let data := inner.data.Data.getD []
    if inner.data.hashType ≠ none ∨ inner.data.fanout ≠ none then
      .error (.File (.UnexpectedRawOrFileProperties inner.data.hashType inner.data.fanout))
    else
      let endE : Except FileReadFailed Ending :=
        if inner.links = [] then
          .ok (.Chunk (offset + inner.data.filesize.getD data.length))
        else
          match inner.data.filesize with
          | some filesize => .ok (.TreeCoverage (offset + filesize))
          | none => .error (.File .IntermediateNodeWithoutFileSize)
      endE.map fun e =>
        { offset
          ending := e
          had_links := !decide (inner.links = [])
          links := inner.links
          data
          blocksizes := inner.data.blocksizes
          metadata }

/-- `FileReader::from_block` of src/unixfs/src/file/reader.rs. The block
arrives already decoded (the pb codec is outside src/ and modelled as done). -/
def FileReader.from_block (inner : FlatUnixFs) : Except FileReadFailed FileReader :=
  FileReader.from_parts inner 0 (metadataFrom inner.data)

/-- `FileReader::from_continued` of src/unixfs/src/file/reader.rs: non-root
blocks must not carry mode/mtime. -/
def FileReader.from_continued (traversal : Traversal) (offset : Nat) (inner : FlatUnixFs) :
    Except FileReadFailed FileReader :=
  if inner.data.mode.isSome || inner.data.mtime.isSome then
    .error (.File (.NonRootDefinesMetadata (metadataFrom inner.data)))
  else
    FileReader.from_parts inner offset traversal.metadata

/-- `FileContent` of src/unixfs/src/file/reader.rs, with the `Spread` iterator
materialized as a list of link/range pairs. -/
inductive FileContent where
  | just (bytes : List Nat)
  | spread (iter : List (PBLink × URange))

/-- Modelled from the spec: `RangeLinks::from_links_and_blocksizes` of the pb
module (not under src/) pairs each link with its absolute file-offset range
derived from the base offset plus the prefix sums of the blocksizes. -/
def rangeLinks : List PBLink → List Nat → Nat → List (PBLink × URange)
  | link :: links, size :: sizes, pos =>
    (link, ⟨pos, pos + size⟩) :: rangeLinks links sizes (pos + size)
  | _, _, _ => []

/-- `FileReader::content` of src/unixfs/src/file/reader.rs. -/
def FileReader.content (self : FileReader) : FileContent × Traversal :=
  let traversal : Traversal :=
    { last_had_links := !self.had_links
      last_ending := self.ending
      last_offset := self.offset
      metadata := self.metadata }
  if self.links = [] then
    (.just self.data, traversal)
  else
    (.spread (rangeLinks self.links self.blocksizes self.offset), traversal)

/-- `Traversal::continue_walk` of src/unixfs/src/file/reader.rs. -/
def Traversal.continue_walk (self : Traversal) (next_block : FlatUnixFs)
    (tree_range : URange) : Except FileReadFailed FileReader :=
  match self.last_ending.check_is_suitable_next self.last_offset tree_range with
  | .error e => .error e
  | .ok _ => FileReader.from_continued self tree_range.start next_block

/-- `Chunker` of src/unixfs/src/adder.rs; the only variant is fixed `Size`
(default 256 KiB). -/
inductive Chunker where
  | Size (max : Nat)
  deriving DecidableEq, Repr

/-- `Chunker::accept` of src/unixfs/src/adder.rs, translated exactly: the
accepted slice is `input[..min(input.len(), max)]` and `ready` is
`l + input.len() >= max`; the `buffered` argument is received but not used,
as in the source. -/
def Chunker.accept : Chunker → List Nat → List Nat → List Nat × Bool
  | .Size max, input, _buffered =>
    let l := min input.length max
    let accepted := input.take l
    let ready := decide (max ≤ l + input.length)
    (accepted, ready)

/-- Modelled from the spec: the length of the deterministic protobuf encoding
of a block (the pb codec is not under src/). It only feeds the `total_size`
stored in `unflushed_links` and from there `PBLink::Tsize`, which none of the
verified properties read; the exact value is immaterial. -/
def encodedLen (b : FlatUnixFs) : Nat :=
  (b.data.Data.getD []).length + 40 * b.links.length + 8

/-- `render_and_hash` of src/unixfs/src/adder.rs. Modelled from the spec:
serialization and sha-256 hashing live outside src/, and a CID is a
collision-free function of the encoded bytes, so both the CID and the encoded
block of the returned pair are represented by the block itself. -/
def render_and_hash (flat : FlatUnixFs) : Cid × FlatUnixFs :=
  (flat, flat)

/-- `FileAdder` of src/unixfs/src/adder.rs. `unflushed_links` holds
`(cid, total_size, block_size)` triples; `total_blocks` and `filesize` exist
in the source but are never updated by it. -/
structure FileAdder where
  chunker : Chunker := Chunker.Size (256 * 1024)
  block_buffer : List Nat := []
  unflushed_links : List (Cid × Nat × Nat) := []
  total_blocks : Nat := 0
  filesize : Nat := 0

/-- `FileAdder::with_chunker` of src/unixfs/src/adder.rs. -/
def FileAdder.with_chunker (chunker : Chunker) : FileAdder :=
  { chunker }

/-- `FileAdder::flush_buffered_leaf` of src/unixfs/src/adder.rs: encode the
buffered bytes as a leaf block, record its link entry, clear the buffer. -/
def FileAdder.flush_buffered_leaf (self : FileAdder) :
    Option (Cid × FlatUnixFs) × FileAdder :=
  if self.block_buffer = [] then
    (none, self)
  else
    let bytes := self.block_buffer.length
    let inner : FlatUnixFs := .mk []
      { typ := .File
        Data := some self.block_buffer
        filesize := some self.block_buffer.length
        blocksizes := []
        hashType := none
        fanout := none
        mode := none
        mtime := none }
    let cv := render_and_hash inner
    let total_size := encodedLen cv.2
    (some cv,
      { self with
          block_buffer := []
          unflushed_links := self.unflushed_links ++ [(cv.1, total_size, bytes)] })

/-- `FileAdder::flush_buffered_links` of src/unixfs/src/adder.rs: when at
least `min_links` link entries are pending, drain them into one interior
block (whose `filesize` is the sum of the block sizes) and emit it. Note that
the source does not push a link entry for the emitted interior block. -/
def FileAdder.flush_buffered_links (self : FileAdder) (min_links : Nat) :
    Option (Cid × FlatUnixFs) × FileAdder :=
  if min_links ≤ self.unflushed_links.length then
    let links : List PBLink := self.unflushed_links.map fun cts =>
      { Hash := some cts.1, Name := some [], Tsize := some cts.2.1 }
    let blocksizes := self.unflushed_links.map fun cts => cts.2.2
    let nested_size := blocksizes.sum
    let inner : FlatUnixFs := .mk links
      { typ := .File
        Data := none
        filesize := some nested_size
        blocksizes
        hashType := none
        fanout := none
        mode := none
        mtime := none }
    let cv := render_and_hash inner
    (some cv, { self with unflushed_links := [] })
  else
    (none, self)

/-- `FileAdder::push` of src/unixfs/src/adder.rs: accept a prefix through the
chunker, and when the chunk is ready flush the leaf and (at fan-out 174) the
buffered links. Returns the emitted blocks, the consumed byte count, and the
updated adder. -/
def FileAdder.push (self : FileAdder) (input : List Nat) :
    List (Cid × FlatUnixFs) × Nat × FileAdder :=
  let ar := self.chunker.accept input self.block_buffer
  let self := { self with block_buffer := self.block_buffer ++ ar.1 }
  let written := ar.1.length
  if ar.2 then
    let lf := self.flush_buffered_leaf
    let ln := lf.2.flush_buffered_links 174
    (lf.1.toList ++ ln.1.toList, written, ln.2)
  else
    ([], written, self)

/-- `FileAdder::finish` of src/unixfs/src/adder.rs: flush any tail leaf, then
collapse the remaining link entries (threshold 1) into the root. -/
def FileAdder.finish (self : FileAdder) : List (Cid × FlatUnixFs) :=
  let lf := self.flush_buffered_leaf
  let ln := lf.2.flush_buffered_links 1
  lf.1.toList ++ ln.1.toList

/-- The full-drain driver loop used by the source's tests and examples: push
the remaining input, drop the consumed prefix, repeat (fuelled by the input
length; each push of a nonempty input consumes at least one byte for any
chunker `Size n` with `0 < n`). -/
def FileAdder.pushLoop : Nat → FileAdder → List Nat → List (Cid × FlatUnixFs) × FileAdder
  | 0, self, _ => ([], self)
  | _ + 1, self, [] => ([], self)
  | fuel + 1, self, input@(_ :: _) =>
    let r := self.push input
    let rest := FileAdder.pushLoop fuel r.2.2 (input.drop r.2.1)
    (r.1 ++ rest.1, rest.2)

/-- `add(S)`: feed the whole stream through `push` in the full-drain split,
then `finish`; the complete emitted block sequence. -/
def addAll (chunker : Chunker) (input : List Nat) : List (Cid × FlatUnixFs) :=
  let r := FileAdder.pushLoop (input.length + 1) (FileAdder.with_chunker chunker) input
  r.1 ++ r.2.finish

/-- Models Rust slice indexing `&content[a..b]`: `none` when the index is out
of bounds, which in Rust aborts the thread. -/
def sliceIdx (content : List Nat) (a b : Nat) : Option (List Nat) :=
  if a ≤ b ∧ b ≤ content.length then some ((content.drop a).take (b - a)) else none

/-- `partially_match_range` of src/unixfs/src/file/visit.rs. -/
def partially_match_range (block : URange) (target : URange) : Bool :=
  decide (max block.start target.start ≤ min block.stop target.stop)

/-- `overlapping_slice` of src/unixfs/src/file/visit.rs: the intersection of
the target with this block, in block-local coordinates. `none` models the
abort of an out-of-bounds slice index. In every branch the `u64` subtractions
are guarded by the branch conditions, so `Nat` subtraction agrees with the
source. -/
def overlapping_slice (content : List Nat) (block : URange) (target : URange) :
    Option (List Nat) :=
  if !partially_match_range block target then
    some []
  else
    let se :=
      if target.start < block.start then
        (0, min target.stop block.stop - block.start)
      else if block.stop < target.stop then
        (target.start - block.start, min target.stop block.stop - block.start)
      else
        (target.start - block.start,
          (target.start - block.start) + (target.stop - target.start))
    sliceIdx content se.1 se.2

/-- `to_pending` of src/unixfs/src/file/visit.rs. In this embedding a link's
`Hash` already is the CID, so `Cid::try_from` cannot fail; `none` models the
abort of `unwrap_borrowed` on an absent hash. -/
def to_pending (link : PBLink) (range : URange) : Option (Cid × URange) :=
  match link.Hash with
  | some cid => some (cid, range)
  | none => none

/-- Collects `to_pending` over the kept links, `none` when any link aborts. -/
def toPendingAll : List (PBLink × URange) → Option (List (Cid × URange))
  | [] => some []
  | (link, range) :: rest =>
    match to_pending link range, toPendingAll rest with
    | some p, some ps => some (p :: ps)
    | _, _ => none

/-- `IdleFileVisit` of src/unixfs/src/file/visit.rs (the visitor callback is
dropped: the yielded bytes are returned instead of passed to a callback). -/
structure IdleFileVisit where
  range : Option URange

/-- `IdleFileVisit::with_target_range` of src/unixfs/src/file/visit.rs. -/
def IdleFileVisit.with_target_range (_self : IdleFileVisit) (range : URange) :
    IdleFileVisit :=
  { range := some range }

/-- `FileVisit` of src/unixfs/src/file/visit.rs: the pending stack (next item
last), the optional target range, and the traversal state. -/
structure FileVisit where
  pending : List (Cid × URange)
  range : Option URange
  state : Traversal

/-- `Visitation` of src/unixfs/src/file/visit.rs. -/
inductive Visitation where
  | Completed
  | Continues (fv : FileVisit)

/-- The outcome of one visit step: the source function returns
`Result<(&[u8], Visitation), FileReadFailed>` and can also abort on an
out-of-bounds slice (`panicked`). -/
inductive VisitOutcome where
  | panicked
  | failed (e : FileReadFailed)
  | ok (bytes : List Nat) (next : Visitation)

/-- `Vec::pop`: the last element and the remainder. -/
def vecPop {α : Type} (l : List α) : Option (α × List α) :=
  match l.getLast? with
  | some x => some (x, l.dropLast)
  | none => none

/-- The filter applied to child links: keep those whose range partially
matches the target range, keep everything when there is no target. -/
def keepByRange (target : Option URange) (children : List (PBLink × URange)) :
    List (PBLink × URange) :=
  children.filter fun lr =>
    match target with
    | some t => partially_match_range lr.2 t
    | none => true

/-- `IdleFileVisit::start` of src/unixfs/src/file/visit.rs: read the root
block; a leaf is sliced by the target range directly (with no bounds check,
hence possibly `panicked`); an interior node's matching children become the
pending stack in reverse. -/
def IdleFileVisit.start (self : IdleFileVisit) (block : FlatUnixFs) : VisitOutcome :=
  match FileReader.from_block block with
  | .error e => .failed e
  | .ok fr =>
    let ct := fr.content
    match ct.1 with
    | .just content =>
      match self.range with
      | some range =>
        match sliceIdx content range.start range.stop with
        | some c => .ok c .Completed
        | none => .panicked
      | none => .ok content .Completed
    | .spread iter =>
      match toPendingAll (keepByRange self.range iter) with
      | none => .panicked
      | some pending0 =>
        let pending := pending0.reverse
        if pending = [] then
          .ok [] .Completed
        else
          .ok [] (.Continues { pending, range := self.range, state := ct.2 })

/-- `FileVisit::pending_links` of src/unixfs/src/file/visit.rs: the pending
CIDs in consumption order (the head is the block needed next). -/
def FileVisit.pending_links (self : FileVisit) : List Cid :=
  (self.pending.reverse).map fun p => p.1

/-- `FileVisit::continue_walk` of src/unixfs/src/file/visit.rs: pop the next
pending link, walk into the supplied block through the traversal, slice leaf
content by the target range, and push the matching children of an interior
node (reversed) onto the stack. -/
def FileVisit.continue_walk (self : FileVisit) (next : FlatUnixFs) : VisitOutcome :=
  match vecPop self.pending with
  | none => .panicked
  | some (pr, rest) =>
    match self.state.continue_walk next pr.2 with
    | .error e => .failed e
    | .ok fr =>
      let ct := fr.content
      match ct.1 with
      | .just content =>
        let sliced :=
          match self.range with
          | some target => overlapping_slice content pr.2 target
          | none => some content
        match sliced with
        | none => .panicked
        | some c =>
          if rest ≠ [] then
            .ok c (.Continues { self with pending := rest, state := ct.2 })
          else
            .ok c .Completed
      | .spread iter =>
        match toPendingAll (keepByRange self.range iter) with
        | none => .panicked
        | some newp =>
          .ok [] (.Continues
            { pending := rest ++ newp.reverse, range := self.range, state := ct.2 })

/-- The driver loop of the source's tests: fetch the block for the first
pending link (in this embedding the CID is the block) and continue the walk,
collecting the byte slice yielded at each step. `none` models an abort, an
error, or fuel exhaustion. -/
def runVisit : Nat → FileVisit → Option (List (List Nat))
  | 0, _ => none
  | fuel + 1, fv =>
    match (fv.pending_links).head? with
    | none => none
    | some cid =>
      match fv.continue_walk cid with
      | .ok bytes .Completed => some [bytes]
      | .ok bytes (.Continues fv2) => (runVisit fuel fv2).map fun l => bytes :: l
      | _ => none

/-- The slices yielded by a complete visit after `start`: the bytes returned
by `start` itself, then one entry per `continue_walk`. -/
def visitSlices (range : Option URange) (root : FlatUnixFs) : Option (List (List Nat)) :=
  match IdleFileVisit.start { range } root with
  | .ok bytes .Completed => some [bytes]
  | .ok bytes (.Continues fv) => (runVisit 1000 fv).map fun l => bytes :: l
  | _ => none

/-- `cat(root)`: the byte stream a full (unranged) visit reproduces from the
tree under `root`. -/
def catBytes (root : FlatUnixFs) : Option (List Nat) :=
  (visitSlices none root).map List.flatten

/-! Auxiliary projections and concrete fixtures used by the statements. -/

/-- The error of a reader construction, `none` when a reader was built. -/
def exceptError (r : Except FileReadFailed FileReader) : Option FileReadFailed :=
  match r with
  | .error e => some e
  | .ok _ => none

/-- The metadata of a successfully constructed reader. -/
def readerMeta (r : Except FileReadFailed FileReader) : Option FileMetadata :=
  match r with
  | .ok fr => some fr.metadata
  | .error _ => none

/-- The content bytes a block carries (`UnixFs::Data`). -/
def blockData (b : FlatUnixFs) : Option (List Nat) :=
  b.data.Data

/-- The number of outgoing links of a block. -/
def blockLinkCount (b : FlatUnixFs) : Nat :=
  b.links.length

/-- The child ranges on the pending stack after a visit step that continues,
top of the stack (= next link) last, as in the source's `Vec`. -/
def pendingRanges (o : VisitOutcome) : Option (List URange) :=
  match o with
  | .ok _ (.Continues fv) => some (fv.pending.map fun p => p.2)
  | _ => none

/-- A single leaf block holding `bs`, as the adder encodes leaves. -/
def leafOf (bs : List Nat) : FlatUnixFs :=
  .mk []
    { typ := .File
      Data := some bs
      filesize := some bs.length
      blocksizes := []
      hashType := none
      fanout := none
      mode := none
      mtime := none }

/-- A file link as the adder renders them: empty name, some cumulative size. -/
def mkLink (c : Cid) (ts : Nat) : PBLink :=
  { Hash := some c, Name := some [], Tsize := some ts }

/-- The byte stream of scenarios S1/S2: `b"foobar\n"`. -/
def fooBytes : List Nat := [102, 111, 111, 98, 97, 114, 10]

/-- The four-leaf tree of scenario S2/S4: leaves "fo", "ob", "ar", "\n" of a
7-byte file, with blocksizes 2,2,2,1 (the shape of the go-ipfs fixture used
by the source's traversal test). -/
def s4root : FlatUnixFs :=
  .mk [mkLink (leafOf [102, 111]) 10, mkLink (leafOf [111, 98]) 10,
       mkLink (leafOf [97, 114]) 10, mkLink (leafOf [10]) 9]
    { typ := .File
      Data := none
      filesize := some 7
      blocksizes := [2, 2, 2, 1]
      hashType := none
      fanout := none
      mode := none
      mtime := none }

/-- The complete block sequence the adder emits for 175 identical bytes under
`Chunker::Size(1)` in the full-drain split: 175 leaves, one interior block
collapsing the first 174 link entries, and the block `finish` emits. -/
def c1blocks : List (Cid × FlatUnixFs) :=
  addAll (Chunker.Size 1) (List.replicate 175 7)

/-- The block sequence for the stream `[97, 98]` under `Chunker::Size(2)`
pushed as two one-byte calls (each returned sequence fully consumed),
followed by `finish`. -/
def splitPushed : List (Cid × FlatUnixFs) :=
  let a0 := FileAdder.with_chunker (Chunker.Size 2)
  let r1 := a0.push [97]
  let r2 := r1.2.2.push [98]
  (r1.1 ++ r2.1) ++ r2.2.2.finish

/-- A root leaf block that carries metadata (mode 0o755, mtime (1000, 5ns))
and content "hi". -/
def rootWithMeta : FlatUnixFs :=
  .mk []
    { typ := .File
      Data := some [104, 105]
      filesize := some 2
      blocksizes := []
      hashType := none
      fanout := none
      mode := some 493
      mtime := some (1000, some 5) }

/-- A block with no links and no filesize whose type is Symlink. -/
def symBlock : FlatUnixFs :=
  .mk []
    { typ := .Symlink
      Data := some [120]
      filesize := none
      blocksizes := []
      hashType := none
      fanout := none
      mode := none
      mtime := none }

/-- A non-root leaf block that carries a mode (0o700). -/
def nonRootMetaInner : FlatUnixFs :=
  .mk []
    { typ := .File
      Data := some [1]
      filesize := some 1
      blocksizes := []
      hashType := none
      fanout := none
      mode := some 448
      mtime := none }

/-! Formalisations of the spec's wording, to be compared with the embedded
source functions (refinement statements). -/

/-- The validation list of §4.4 of the spec as worded there, as a function
from a decoded block to the error it should produce (`none`: a reader is
constructed). "No data" is read as "no content bytes" (absent or empty
`Data`), as in the source's own error description "there are no links or
content". -/
def from_parts_spec_err (inner : FlatUnixFs) : Option FileReadFailed :=
  if inner.data.typ ≠ UnixFsType.File ∧ inner.data.typ ≠ UnixFsType.Raw then
    some (.UnexpectedType inner.data.typ)
  else if inner.links.length ≠ inner.data.blocksizes.length then
    some (.File .LinksAndBlocksizesMismatch)
  else if inner.data.Data.getD [] = [] ∧ 0 < inner.data.filesize.getD 0 ∧ inner.links = [] then
    some (.File .NoLinksNoContent)
  else if inner.data.hashType ≠ none ∨ inner.data.fanout ≠ none then
    some (.File (.UnexpectedRawOrFileProperties inner.data.hashType inner.data.fanout))
  else if inner.links ≠ [] ∧ inner.data.filesize = none then
    some (.File .IntermediateNodeWithoutFileSize)
  else
    none

/-- The four cross-block conditions of §4.5 of the spec as worded there
(an ordered rule list; `none`: the next range is suitable). -/
def check_spec (last_ending : Ending) (last_offset : Nat) (next : URange) :
    Option FileError :=
  match last_ending with
  | .TreeCoverage cover_end =>
    if next.start ≤ last_offset ∧ next.stop > cover_end then
      some .TreeExpandsOnLinks
    else if next.start < cover_end ∧ next.stop > cover_end then
      some .TreeOverlapsBetweenLinks
    else if next.start < last_offset then
      some .EarlierLink
    else
      none
  | .Chunk chunk_end =>
    if next.start ≠ chunk_end then
      some .TreeJumpsBetweenLinks
    else
      none

/-! The claims. -/

/-- C3 (code evaluation at the failing inputs): the claim states that
`Chunker::accept(input, buffered)` with `FixedSize(MAX)` accepts the prefix
of length `min(MAX - buffered.len(), input.len())` and is ready iff
`buffered.len() + accepted.len() == MAX`. The source instead computes
`l = min(input.len(), MAX)` and `ready = l + input.len() >= MAX`, ignoring
`buffered`: with MAX = 2, one input byte and an empty buffer it reports
ready although `0 + 1 ≠ 2`, and with one buffered byte and two input bytes
it accepts both although `MAX - buffered.len() = 1`. -/
theorem claim_C3_chunker_accept_ignores_buffered :
    Chunker.accept (.Size 2) [7] [] = ([7], true) ∧
    Chunker.accept (.Size 2) [1, 2] [9] = ([1, 2], true) ∧
    ¬(0 + ([7] : List Nat).length = 2) ∧
    ¬(([1, 2] : List Nat).length = min (2 - ([9] : List Nat).length) 2) := by
  refine ⟨rfl, rfl, by decide, by decide⟩

/-- C4 (code evaluation at the failing input): after pushing `b"foobar\n"`
with the default chunker, `finish` emits the leaf AND an additional interior
block with one link wrapping it (`flush_buffered_links` runs with
`min_links = 1` and the leaf's link entry pending), contradicting the claim
that the single leaf is the root with no wrapper. -/
theorem claim_C4_finish_wraps_single_leaf :
    (addAll (Chunker.Size (256 * 1024)) fooBytes).map
        (fun p => (blockData p.2, blockLinkCount p.2)) =
      [(some fooBytes, 0), (none, 1)] := by
  rfl

/-- C5 (code evaluation at the failing input): the same stream `[97, 98]`
under the same chunker `Size(2)` and fan-out yields different block
sequences depending only on how the stream is split across `push` calls
(one two-byte push: leaf "ab" and a root; two one-byte pushes: leaves "a",
"b" and a root), so the emitted sequence is not a function of
(chunker config, fan-out, byte stream). -/
theorem claim_C5_emitted_blocks_depend_on_push_split :
    (addAll (Chunker.Size 2) [97, 98]).map (fun p => blockData p.2) =
        [some [97, 98], none] ∧
    splitPushed.map (fun p => blockData p.2) =
        [some [97], some [98], none] ∧
    ([some ([97, 98] : List Nat), none] : List (Option (List Nat))) ≠
        [some [97], some [98], none] := by
  refine ⟨rfl, rfl, by decide⟩

/-- C9 counterexample: the claim asserts the visit of the four-leaf tree with
target range `[2, 5)` descends into leaves "ob" and "ar" only. In the source,
`partially_match_range` uses `≤`, so the leaf "fo" covering `[0, 2)` also
matches the target `[2, 5)` (they touch at 2): after `start` the pending
stack holds three children including the one covering `[0, 2)`, and the walk
performs three `continue_walk` steps whose yields are `""`, `"ob"`, `"a"` —
not the two steps the claim describes. -/
theorem claim_C9_counterexample :
    pendingRanges (IdleFileVisit.start { range := some ⟨2, 5⟩ } s4root) =
        some [⟨4, 6⟩, ⟨2, 4⟩, ⟨0, 2⟩] ∧
    (visitSlices (some ⟨2, 5⟩) s4root).map (fun l => l.length) = some 4 := by
  refine ⟨rfl, rfl⟩

/-- C9 (amended): the visit of the four-leaf tree with target range `[2, 5)`
descends into the leaves "fo", "ob" and "ar" (not "\n"); "fo" touches the
target only at its boundary and contributes the empty slice, so the
leaf-local slices are `""`, `"ob"`, `"a"` and the total is `b"oba"`. -/
theorem claim_C9_amended_range_visit :
    visitSlices (some ⟨2, 5⟩) s4root =
        some [[], [], [111, 98], [97]] ∧
    (visitSlices (some ⟨2, 5⟩) s4root).map List.flatten =
        some [111, 98, 97] := by
  refine ⟨rfl, rfl⟩

/-- C10 counterexample: the claim asserts every block with no links and an
absent filesize is accepted as a leaf, but a Symlink-typed block with no
links and no filesize is rejected with `UnexpectedType`. -/
theorem claim_C10_counterexample :
    FileReader.from_parts symBlock 0 ⟨none, none⟩ =
      .error (.UnexpectedType .Symlink) := by
  rfl

/-- C6: the decode validation of `FileReader::from_parts` behaves exactly as
the spec's ordered list states it — a type other than File/Raw gives
`UnexpectedType`, a links/blocksizes length mismatch gives
`LinksAndBlocksizesMismatch`, no content with positive filesize and no links
gives `NoLinksNoContent`, a present hashType or fanout gives
`UnexpectedRawOrFileProperties`, links without filesize give
`IntermediateNodeWithoutFileSize`, and otherwise a reader is constructed
(the error is `none`). -/
theorem claim_C6_from_parts_validation :
    ∀ (inner : FlatUnixFs) (offset : Nat) (md : FileMetadata),
      exceptError (FileReader.from_parts inner offset md) = from_parts_spec_err inner := by
  intro inner offset md
  cases inner with
  | mk links d =>
    obtain ⟨typ, dt, fs, bs, ht, fo, mo, mt⟩ := d
    simp only [FileReader.from_parts, from_parts_spec_err, FlatUnixFs.links, FlatUnixFs.data,
      exceptError]
    cases fs <;>
      split_ifs <;>
        simp_all [Except.map, exceptError] <;> omega

/-- Every successfully constructed reader records the offset it was given. -/
theorem from_parts_ok_offset (inner : FlatUnixFs) (off : Nat) (md : FileMetadata)
    (fr : FileReader) (h : FileReader.from_parts inner off md = .ok fr) :
    fr.offset = off := by
  cases inner with
  | mk links d =>
    obtain ⟨typ, dt, fs, bs, ht, fo, mo, mt⟩ := d
    simp only [FileReader.from_parts, FlatUnixFs.links, FlatUnixFs.data] at h
    cases fs <;> split_ifs at h <;>
      simp only [Except.map] at h <;> cases h <;> rfl

/-- C7: `Ending::check_is_suitable_next` errors exactly under the spec's four
ordered conditions (first conjunct, against the spec-worded rule list);
`Traversal::continue_walk` is that check followed by
`FileReader::from_continued` at `tree_range.start` (second conjunct), and a
reader it constructs sits at offset `tree_range.start` (third conjunct). -/
theorem claim_C7_continue_walk_checks :
    (∀ (e : Ending) (off : Nat) (next : URange),
        e.check_is_suitable_next off next =
          match check_spec e off next with
          | some err => .error (.File err)
          | none => .ok ()) ∧
    (∀ (t : Traversal) (nb : FlatUnixFs) (r : URange),
        t.continue_walk nb r =
          match t.last_ending.check_is_suitable_next t.last_offset r with
          | .error e => .error e
          | .ok _ => FileReader.from_continued t r.start nb) ∧
    (∀ (t : Traversal) (nb : FlatUnixFs) (r : URange) (fr : FileReader),
        t.continue_walk nb r = .ok fr → fr.offset = r.start) := by
  refine ⟨?_, ?_, ?_⟩
  · intro e off next
    cases e <;>
      simp only [Ending.check_is_suitable_next, check_spec] <;>
        split_ifs <;> rfl
  · intro t nb r
    rfl
  · intro t nb r fr h
    simp only [Traversal.continue_walk] at h
    cases hc : t.last_ending.check_is_suitable_next t.last_offset r with
    | error e => rw [hc] at h; cases h
    | ok u =>
      rw [hc] at h
      simp only [FileReader.from_continued] at h
      cases hm : (nb.data.mode.isSome || nb.data.mtime.isSome) with
      | true => rw [hm] at h; simp at h
      | false =>
        rw [hm] at h
        simp only [Bool.false_eq_true, if_false] at h
        exact from_parts_ok_offset _ _ _ _ h

/-- Witness for C7 at a concrete input: continuing from a chunk ending at 5
into the leaf "ab" over the range `[5, 7)` constructs a reader at offset 5. -/
theorem claim_C7_witness :
    ({ offset := 5, ending := .Chunk 7, had_links := false, links := [],
       data := [97, 98], blocksizes := [], metadata := ⟨none, none⟩ } : FileReader).offset =
      (URange.mk 5 7).start :=
  claim_C7_continue_walk_checks.2.2
    ⟨false, .Chunk 5, 0, ⟨none, none⟩⟩ (leafOf [97, 98]) ⟨5, 7⟩
    { offset := 5, ending := .Chunk 7, had_links := false, links := [],
      data := [97, 98], blocksizes := [], metadata := ⟨none, none⟩ }
    rfl

/-- C8: a non-root block (read through `from_continued`, hence through
`Traversal::continue_walk`) carrying a mode or mtime is rejected with
`NonRootDefinesMetadata`; the same metadata on the root block given to
`from_block` is accepted and surfaced on the constructed reader. -/
theorem claim_C8_nonroot_metadata_rejected :
    (∀ (t : Traversal) (off : Nat) (inner : FlatUnixFs),
        inner.data.mode ≠ none ∨ inner.data.mtime ≠ none →
        FileReader.from_continued t off inner =
          .error (.File (.NonRootDefinesMetadata (metadataFrom inner.data)))) ∧
    readerMeta (FileReader.from_block rootWithMeta) =
      some { mode := some 493, mtime := some (1000, 5) } := by
  constructor
  · intro t off inner h
    have hb : (inner.data.mode.isSome || inner.data.mtime.isSome) = true := by
      rcases h with h | h <;> simp [Option.isSome_iff_ne_none, h]
    simp [FileReader.from_continued, hb]
  · rfl

/-- Witness for C8 at a concrete input: a leaf with mode 0o700 offered as a
non-root block is rejected with `NonRootDefinesMetadata`. -/
theorem claim_C8_witness :
    FileReader.from_continued ⟨false, .Chunk 0, 0, ⟨none, none⟩⟩ 3 nonRootMetaInner =
      .error (.File (.NonRootDefinesMetadata ⟨some 448, none⟩)) :=
  claim_C8_nonroot_metadata_rejected.1
    ⟨false, .Chunk 0, 0, ⟨none, none⟩⟩ 3 nonRootMetaInner (Or.inl (by decide))

/-- C10 (amended): every block with no links and an absent filesize whose
type is File or Raw, with empty blocksizes and absent hashType/fanout, is
accepted as a leaf whose ending is `Chunk(offset + data length)` — the
missing filesize is defaulted to the data length and is not an error. -/
theorem claim_C10_amended_leaf_filesize_default :
    ∀ (off : Nat) (md : FileMetadata) (dt : Option (List Nat)) (mo : Option Nat)
      (mt : Option (Int × Option Nat)) (typ : UnixFsType),
      typ = .File ∨ typ = .Raw →
      FileReader.from_parts
          (.mk [] { typ, Data := dt, filesize := none, blocksizes := [],
                    hashType := none, fanout := none, mode := mo, mtime := mt }) off md =
        .ok { offset := off, ending := .Chunk (off + (dt.getD []).length),
              had_links := false, links := [], data := dt.getD [],
              blocksizes := [], metadata := md } := by
  intro off md dt mo mt typ h
  rcases h with h | h <;> subst h <;>
    simp [FileReader.from_parts, FlatUnixFs.links, FlatUnixFs.data, Except.map]

/-- Witness for the amended C10 at a concrete input: a Raw leaf of three
bytes with no filesize is read at offset 10 as a chunk ending at 13. -/
theorem claim_C10_witness :
    FileReader.from_parts
        (.mk [] { typ := .Raw, Data := some [1, 2, 3], filesize := none, blocksizes := [],
                  hashType := none, fanout := none, mode := none, mtime := none }) 10
        ⟨none, none⟩ =
      .ok { offset := 10, ending := .Chunk 13, had_links := false, links := [],
            data := [1, 2, 3], blocksizes := [], metadata := ⟨none, none⟩ } :=
  claim_C10_amended_leaf_filesize_default 10 ⟨none, none⟩ (some [1, 2, 3]) none none
    .Raw (Or.inr rfl)

/-- A nonempty buffer always encodes to a well-formed leaf reader: reading a
leaf block produced by the adder at any offset yields a chunk covering its
bytes. -/
theorem from_parts_leafOf (bs : List Nat) (off : Nat) (md : FileMetadata) (h : bs ≠ []) :
    FileReader.from_parts (leafOf bs) off md =
      .ok { offset := off, ending := .Chunk (off + bs.length), had_links := false,
            links := [], data := bs, blocksizes := [], metadata := md } := by
  simp [FileReader.from_parts, leafOf, FlatUnixFs.links, FlatUnixFs.data, h, Except.map]

/-- Starting a visit on a single leaf block with a target range that is not
within bounds reaches the unchecked slice `content[start..end]` and aborts. -/
theorem start_leafOf_out_of_bounds (bs : List Nat) (r : URange) (h : bs ≠ [])
    (hout : ¬(r.start ≤ r.stop ∧ r.stop ≤ bs.length)) :
    IdleFileVisit.start { range := some r } (leafOf bs) = .panicked := by
  have hs : sliceIdx bs r.start r.stop = none := by
    rw [sliceIdx, if_neg hout]
  simp only [IdleFileVisit.start, FileReader.from_block]
  rw [from_parts_leafOf bs 0 _ h]
  show (match sliceIdx bs r.start r.stop with
        | some c => VisitOutcome.ok c .Completed
        | none => VisitOutcome.panicked) = VisitOutcome.panicked
  rw [hs]

/-- C2 (code evaluation at the failing input): a 200 KB single-leaf file
visited with target range `[500_000_000, 500_000_032)` does not return an
empty byte sequence — `IdleFileVisit::start` slices the leaf content with the
raw target bounds and no bounds check, which aborts (out-of-bounds slice
index), where the claim and the spec (S6, §7) require empty bytes with
successful completion. -/
theorem claim_C2_out_of_range_single_leaf_aborts :
    IdleFileVisit.start { range := some ⟨500000000, 500000032⟩ }
      (leafOf (List.replicate 200000 0)) = .panicked := by
  have h1 : (List.replicate 200000 (0 : Nat)) ≠ [] := by
    rw [Ne, List.replicate_eq_nil_iff]
    norm_num
  have hout : ¬((500000000 : Nat) ≤ 500000032 ∧
      (500000032 : Nat) ≤ (List.replicate 200000 (0 : Nat)).length) := by
    rw [List.length_replicate]
    omega
  exact start_leafOf_out_of_bounds (List.replicate 200000 0) ⟨500000000, 500000032⟩ h1 hout

set_option maxRecDepth 10000 in
/-- C1 (code evaluation at the failing input): for 175 bytes under
`Chunker::Size(1)` in the full-drain split, the adder emits 177 blocks of
which two carry links — the interior block emitted when `unflushed_links`
reached the fan-out 174 (whose own link entry `push` drops), and the block
`finish` emits, which links only the 175th leaf. Reading back from that
final root yields a single byte, not the 175-byte stream; reading from the
dropped interior yields only 174 bytes. `cat(add(S)) == S` therefore fails. -/
theorem claim_C1_cat_add_loses_bytes :
    ((c1blocks.map fun p => blockLinkCount p.2).filter fun n => n ≠ 0) = [174, 1] ∧
    (c1blocks.getLast?).map (fun p => catBytes p.2) = some (some [7]) ∧
    (c1blocks[174]?).map (fun p => (catBytes p.2).map List.length) = some (some 174) ∧
    some (some [7]) ≠ some (some (List.replicate 175 (7 : Nat))) := by
  refine ⟨by decide, by decide, by decide, by decide⟩
